import Mathlib

set_option maxRecDepth 8000
set_option maxHeartbeats 1000000

/-!
Shallow embedding of the BiblioHelper reference-analysis pipeline
(`src/analyze_references.py` and `src/extract_references.py`).

Python strings are modelled as `List Char`; each definition mirrors one
Python function (or one statement block of `__main__`).  Regular-expression
matching with `re.IGNORECASE` is modelled by lowering both the text and the
pattern with the ASCII `Char.toLower` (the patterns involved are literal
strings plus the classes `\s`, `[^,]`, `[0-9]`, `[a-z]`, all of which are
stable under lowering).  Functions defined by scanning recursion take an
explicit fuel argument so that they stay kernel-computable; the wrapper
always passes enough fuel for the whole scan.
-/

namespace BiblioHelper

/-- ASCII model of the Python whitespace class used by `str.strip` and the
regex class `\s`. -/
def pySpace (c : Char) : Bool :=
  c == ' ' || c == '\t' || c == '\n' || c == '\r' || c == '\x0b' || c == '\x0c'

/-- Python `str.lstrip()` (whitespace only). -/
def lstripC (s : List Char) : List Char := s.dropWhile pySpace

/-- Python `str.strip()`: whitespace removed from both ends
(right strip realised by reversing). -/
def pyStrip (s : List Char) : List Char :=
  (lstripC ((lstripC s).reverse)).reverse

/-- Python `str.lower()` (ASCII model, see the file comment). -/
def lowerC (s : List Char) : List Char := s.map Char.toLower

/-- Python `str.split(sep)` for a one-character separator: splits on every
occurrence, keeping empty fields. -/
def splitOnChar (sep : Char) : List Char → List (List Char)
  | [] => [[]]
  | c :: t =>
    let r := splitOnChar sep t
    if c = sep then [] :: r
    else
      match r with
      | [] => [[c]]
      | h :: t2 => (c :: h) :: t2

/-- Python `split(sep)[0]`. -/
def firstSplit (sep : Char) (s : List Char) : List Char :=
  match splitOnChar sep s with
  | [] => []
  | h :: _ => h

/-- Does `pat` occur in `s` starting at index `i`?  (A literal regex match
anchored at `i`.) -/
def occursAt (pat s : List Char) (i : Nat) : Bool :=
  (s.drop i).take pat.length == pat

/-- Python `pat in s` (substring containment). -/
def containsSub (pat s : List Char) : Bool :=
  (List.range (s.length + 1)).any (occursAt pat s)

/-- Helper for `replaceAll`, fuelled so that it is structural. -/
def replaceAllAux (pat repl : List Char) : Nat → List Char → List Char
  | 0, s => s
  | _, [] => []
  | fuel + 1, c :: t =>
    if occursAt pat (c :: t) 0 then repl ++ replaceAllAux pat repl fuel ((c :: t).drop pat.length)
    else c :: replaceAllAux pat repl fuel t

/-- Python `str.replace(pat, repl)`: left-to-right, non-overlapping
replacement of every occurrence (for a non-empty `pat`). -/
def replaceAll (pat repl s : List Char) : List Char :=
  if pat.isEmpty then s else replaceAllAux pat repl s.length s

/-- Helper for `normWs`; the flag records whether the previous character was
part of a whitespace run already replaced. -/
def normWsAux : Bool → List Char → List Char
  | _, [] => []
  | prev, c :: t =>
    if pySpace c then
      if prev then normWsAux true t else ' ' :: normWsAux true t
    else c :: normWsAux false t

/-- Python `re.sub(r'\s+', ' ', s)`: every maximal whitespace run becomes a
single space. -/
def normWs (s : List Char) : List Char := normWsAux false s

/-- Python `sep.join(parts)`. -/
def joinSep (sep : List Char) : List (List Char) → List Char
  | [] => []
  | [x] => x
  | x :: y :: t => x ++ sep ++ joinSep sep (y :: t)

/-- Keep the first occurrence of every element (used to model the *content*
of a Python `set` of strings; the iteration order of a CPython `set` itself
is hash-dependent and not modelled). -/
def dedupFirstAux (seen : List (List Char)) : List (List Char) → List (List Char)
  | [] => []
  | x :: t => if x ∈ seen then dedupFirstAux seen t else x :: dedupFirstAux (x :: seen) t

/-- Python slice `s[a:b]` for `a b : Nat` (negative indices not needed). -/
def takeSlice (s : List Char) (a b : Nat) : List Char :=
  (s.drop a).take (b - a)

/-! ### `parse_reference` (analyze_references.py, lines 60-117) -/

/-- One anchored attempt of the year regex `\(([0-9]{4}[a-z]?)\)` at index
`i`: returns the captured group and the end index of the whole match.  The
optional `[a-z]?` is greedy, so a trailing lowercase letter is taken exactly
when it is followed by `)`. -/
def yearAt (s : List Char) (i : Nat) : Option (List Char × Nat) :=
  match s.drop i with
  | '(' :: d1 :: d2 :: d3 :: d4 :: rest =>
    if d1.isDigit && d2.isDigit && d3.isDigit && d4.isDigit then
      match rest with
      | c :: c2 :: _ =>
        if c.isLower && c2 == ')' then some ([d1, d2, d3, d4, c], i + 7)
        else if c == ')' then some ([d1, d2, d3, d4], i + 6)
        else none
      | [c] => if c == ')' then some ([d1, d2, d3, d4], i + 6) else none
      | [] => none
    else none
  | _ => none

/-- Scan of `re.search` for the year pattern: first index with a match. -/
def findYearAux (s : List Char) : Nat → Nat → Option (Nat × List Char × Nat)
  | 0, _ => none
  | fuel + 1, i =>
    match yearAt s i with
    | some (y, e) => some (i, y, e)
    | none => if i < s.length then findYearAux s fuel (i + 1) else none

/-- Model of `re.search(r'\(([0-9]{4}[a-z]?)\)', s)`: start index, captured year and
end index of the leftmost match. -/
def findYear (s : List Char) : Option (Nat × List Char × Nat) :=
  findYearAux s (s.length + 1) 0

/-- Anchored attempt of `https?://doi\.org/` at `i`, returning the index
just past the fixed part. -/
def doiHead (s : List Char) (i : Nat) : Option Nat :=
  if occursAt ("https://doi.org/".toList) s i then some (i + 16)
  else if occursAt ("http://doi.org/".toList) s i then some (i + 15)
  else none

/-- Anchored attempt of `https?://doi\.org/([^\s,]+)` at `i`; returns the
whole match (`group(0)`). -/
def doiAt (s : List Char) (i : Nat) : Option (List Char) :=
  match doiHead s i with
  | some base =>
    let run := (s.drop base).takeWhile (fun c => !pySpace c && c != ',')
    if run.isEmpty then none else some (takeSlice s i (base + run.length))
  | none => none

/-- Scan of `re.search` for the DOI pattern. -/
def findDoiAux (s : List Char) : Nat → Nat → Option (List Char)
  | 0, _ => none
  | fuel + 1, i =>
    match doiAt s i with
    | some u => some u
    | none => if i < s.length then findDoiAux s fuel (i + 1) else none

/-- The `doi_url` field: leftmost DOI-resolver URL, or `""`. -/
def findDoi (s : List Char) : List Char :=
  match findDoiAux s (s.length + 1) 0 with
  | some u => u
  | none => []

/-- The dictionary returned by `parse_reference`. -/
structure ParsedReference where
  authors : List Char
  year : List Char
  title : List Char
  doi : List Char
  full_ref : List Char
  display : List Char
  deriving Repr, DecidableEq

/-- Builds `ref_display = f"{authors} ({year})"`, then `+= f" - {title}"` when the
title is non-empty (lines 106-108). -/
def mkDisplay (authors year title : List Char) : List Char :=
  (authors ++ (" (".toList ++ (year ++ ")".toList))) ++
    (if title = [] then [] else " - ".toList ++ title)

/-- Model of `parse_reference` (lines 60-117).  The source computes year, DOI,
authors and title sequentially, each branching on whether the year regex
matched; here the two cases of that single test are split into the two
branches of one `match`. -/
def parse_reference (ref_text : List Char) : ParsedReference :=
  match findYear ref_text with
  | some (ys, y, ye) =>
    let ap := normWs (pyStrip (ref_text.take ys))
    let authors :=
      if containsSub (", ".toList) ap then
        let first_author := pyStrip (firstSplit ',' ap)
        if containsSub ("et al".toList) (lowerC ap) then
          first_author ++ " et al.".toList
        else
          let toks := splitOnChar ',' ap
          let joined := joinSep (", ".toList) ((toks.take 3).map pyStrip)
          if 3 < toks.length then joined ++ " et al.".toList else joined
      else ap
    let after_year := pyStrip (ref_text.drop ye)
    let tw := after_year.takeWhile (fun c => c != ',')
    let title :=
      if tw.isEmpty then []
      else
        let t1 := normWs (pyStrip tw)
        if 100 < t1.length then t1.take 100 ++ "...".toList else t1
    { authors := authors, year := y, title := title, doi := findDoi ref_text,
      full_ref := ref_text, display := mkDisplay authors y title }
  | none =>
    let authors :=
      if containsSub (",".toList) ref_text then firstSplit ',' ref_text
      else ref_text.take 50
    { authors := authors, year := [], title := [], doi := findDoi ref_text,
      full_ref := ref_text, display := mkDisplay authors [] [] }

/-! ### `find_reference_citations` (analyze_references.py, lines 119-152)

Both patterns are compiled with `re.IGNORECASE`; this is modelled by
lowering the text and the literal parts once and matching exactly.  The
classes `\s`, `[^,]`, `[0-9]`, `[a-z]` and the parentheses are unchanged by
`Char.toLower`, so positions and match counts agree with the source. -/

/-- Consume the literal `lit` at index `i`. -/
def chompLit (lit s : List Char) (i : Nat) : Option Nat :=
  if occursAt lit s i then some (i + lit.length) else none

/-- Index just past the (maximal) whitespace run starting at `i`
(the greedy `\s*`). -/
def wsEnd (s : List Char) (i : Nat) : Nat :=
  i + ((s.drop i).takeWhile pySpace).length

/-- Greedy `\s+`: at least one whitespace character. -/
def chompWs1 (s : List Char) (i : Nat) : Option Nat :=
  if i < wsEnd s i then some (wsEnd s i) else none

/-- Regex `\.?`: optionally consume one period.  (Greedy, and deterministic here
because the following regex atoms cannot start with a period.) -/
def dotOpt (s : List Char) (i : Nat) : Nat :=
  if (s.drop i).take 1 == ['.'] then i + 1 else i

/-- Anchored attempt of `fa\s+et\s+al\.?\s*\(year\)` at `i` (the literal
tail `pat` is `(year)`); returns the end index of the match. -/
def etAlStep (fa pat s : List Char) (i : Nat) : Option Nat :=
  (chompLit fa s i).bind fun j1 =>
  (chompWs1 s j1).bind fun j2 =>
  (chompLit ("et".toList) s j2).bind fun j3 =>
  (chompWs1 s j3).bind fun j4 =>
  (chompLit ("al".toList) s j4).bind fun j5 =>
  chompLit pat s (wsEnd s (dotOpt s j5))

/-- No comma in `s[a:b]` (the span matched by `[^,]*`). -/
def noCommaRange (s : List Char) (a b : Nat) : Bool :=
  (takeSlice s a b).all (fun c => c != ',')

/-- Last element of a list, as an `Option`. -/
def lastOpt : List α → Option α
  | [] => none
  | [a] => some a
  | _ :: b :: t => lastOpt (b :: t)

/-- Greedy `[^,]*\(year\)` starting at `q`: the largest `k ≥ q` such that
`s[q:k]` is comma-free and the literal `pat` occurs at `k`; returns the end
index of the match. -/
def greedyTail (pat s : List Char) (q : Nat) : Option Nat :=
  (lastOpt ((List.range (s.length + 1)).filter
    (fun k => decide (q ≤ k) && noCommaRange s q k && occursAt pat s k))).map
    (fun k => k + pat.length)

/-- Anchored attempt of `fa[^,]*\(year\)` at `i`. -/
def anchoredStep (fa pat s : List Char) (i : Nat) : Option Nat :=
  (chompLit fa s i).bind fun q => greedyTail pat s q

/-- Model of the `re.finditer` driver: scan the anchors `0, 1, …, n`; after a match
ending at `e > i` continue at `e`.  Fuelled to stay structural; the wrapper
passes fuel `n + 1`, enough for the whole scan. -/
def finditerAux (m : Nat → Option Nat) (n : Nat) : Nat → Nat → List (Nat × Nat)
  | 0, _ => []
  | fuel + 1, i =>
    if n < i then []
    else
      match m i with
      | some e => (i, e) :: finditerAux m n fuel (max e (i + 1))
      | none => if i < n then finditerAux m n fuel (i + 1) else []

/-- All (start, end) spans found by `re.finditer` for the anchored matcher
`m` over a text of length `n`. -/
def finditer (m : Nat → Option Nat) (n : Nat) : List (Nat × Nat) :=
  finditerAux m n (n + 1) 0

/-- One element of the list built by `find_reference_citations`. -/
structure PyCitation where
  position : Nat
  context : List Char
  deriving Repr, DecidableEq

/-- The literal `\(year\)` tail shared by both patterns, lowered once. -/
def citationNeedle (year : List Char) : List Char :=
  lowerC ('(' :: (year ++ [')']))

/-- The matches of `pattern1` (lines 130-134): author-anchored, with the
`et al.` variant chosen when `' et al'` occurs in the lowered authors. -/
def pattern1Matches (text : List Char) (ref : ParsedReference) : List (Nat × Nat) :=
  let first_author := pyStrip (firstSplit ',' ref.authors)
  let lt := lowerC text
  if containsSub (" et al".toList) (lowerC ref.authors) then
    finditer (etAlStep (lowerC first_author) (citationNeedle ref.year) lt) lt.length
  else
    finditer (anchoredStep (lowerC first_author) (citationNeedle ref.year) lt) lt.length

/-- The matches of `pattern2` (line 137): the bare parenthesized year. -/
def pattern2Matches (text : List Char) (ref : ParsedReference) : List (Nat × Nat) :=
  finditer (chompLit (citationNeedle ref.year) (lowerC text)) (lowerC text).length

/-- Slice `text[max(0, start-200) : min(len(text), end+200)]` around one match
(the slice is taken from the original, un-lowered text). -/
def mkContext (text : List Char) (pr : Nat × Nat) : PyCitation :=
  { position := pr.1,
    context := takeSlice text (pr.1 - 200) (min text.length (pr.2 + 200)) }

/-- Model of `find_reference_citations` (lines 119-152): empty year short-circuits;
otherwise every match of `pattern1`, then every match of `pattern2`,
becomes one citation - duplicates across the two patterns are kept. -/
def find_reference_citations (text : List Char) (ref : ParsedReference) : List PyCitation :=
  if ref.year.isEmpty then []
  else (pattern1Matches text ref ++ pattern2Matches text ref).map (mkContext text)

/-! ### `analyze_reference_usage` (analyze_references.py, lines 154-195) -/

def methodKws : List (List Char) :=
  ["méthode", "method", "technique", "approche", "algorithme"].map String.toList

def theoryKws : List (List Char) :=
  ["cadre", "framework", "théorie", "theory", "modèle", "model"].map String.toList

def resultKws : List (List Char) :=
  ["résultat", "result", "comparaison", "comparison", "donnée", "data"].map String.toList

def hypKws : List (List Char) :=
  ["hypothèse", "hypothesis", "appuie", "support"].map String.toList

def exampleKws : List (List Char) :=
  ["exemple", "example", "cas", "case", "application"].map String.toList

def usageMethod : List Char := "justification de méthode".toList
def usageTheory : List Char := "cadre théorique".toList
def usageResults : List Char := "comparaison de résultats".toList
def usageHyp : List Char := "appui d\x27hypothèse".toList
def usageExample : List Char := "exemple ou application".toList
def usageGeneral : List Char := "référence générale".toList

def defaultUsageDesc : List Char :=
  "Référence citée dans la bibliographie mais usage non détecté dans le texte".toList

/-- Classification of one citation context window (lines 164-178):
first-match keyword lookup over the lowered context. -/
def classifyWindow (context : List Char) : List Char :=
  let c := lowerC context
  if methodKws.any (fun w => containsSub w c) then usageMethod
  else if theoryKws.any (fun w => containsSub w c) then usageTheory
  else if resultKws.any (fun w => containsSub w c) then usageResults
  else if hypKws.any (fun w => containsSub w c) then usageHyp
  else if exampleKws.any (fun w => containsSub w c) then usageExample
  else usageGeneral

/-- Model of `analyze_reference_usage` (lines 154-195).  The description is
`", ".join(set(usage_contexts))`; a CPython `set` of strings iterates in a
hash-dependent, process-dependent order, so only its *content* is modelled
faithfully here - the model fixes first-occurrence order.  The importance
value does not depend on that order. -/
def analyze_reference_usage (text : List Char) (ref : ParsedReference) : List Char × Nat :=
  let citations := find_reference_citations text ref
  if citations.isEmpty then (defaultUsageDesc, 30)
  else
    let usage_contexts := (citations.take 3).map (fun c => classifyWindow c.context)
    let importance :=
      if 5 < citations.length then 85
      else if 2 < citations.length then 70
      else if 0 < citations.length then 50
      else 50
    let importance2 :=
      if usageMethod ∈ usage_contexts ∨ usageTheory ∈ usage_contexts then
        min 100 (importance + 15)
      else importance
    let usage_description :=
      if usage_contexts.isEmpty then usageGeneral
      else joinSep (", ".toList) (dedupFirstAux [] usage_contexts)
    (usage_description, importance2)

/-- The importance score exactly as claim C4 words it: 30 for zero
citations; otherwise base 85 / 70 / 50 by citation count, plus 15 capped at
100 exactly when a method-justification or theoretical-framing label was
detected among the (up to 3) classified windows. -/
def c4SpecScore (text : List Char) (ref : ParsedReference) : Nat :=
  let n := (find_reference_citations text ref).length
  if n = 0 then 30
  else
    let base := if 5 < n then 85 else if 2 < n then 70 else 50
    let detected :=
      ((find_reference_citations text ref).take 3).map (fun c => classifyWindow c.context)
    if usageMethod ∈ detected ∨ usageTheory ∈ detected then min 100 (base + 15) else base

/-! ### `categorize_theme` (analyze_references.py, lines 197-215)

The source also computes two unused locals (`title_lower`, `usage_lower`);
they are omitted. -/

def gnssKws : List (List Char) :=
  ["gnss", "gps", "acoustic", "acoustique", "positioning", "positionnement",
   "seafloor", "fond de mer"].map String.toList

def geodesyKws : List (List Char) :=
  ["geodesy", "géodésie", "deformation", "déformation", "strain", "fault",
   "faille"].map String.toList

def optimKws : List (List Char) :=
  ["optimization", "optimisation", "processing", "traitement", "algorithm",
   "algorithme", "filter", "filtre"].map String.toList

def modelKws : List (List Char) :=
  ["model", "modèle", "simulation", "numerical", "numérique", "theoretical",
   "théorique"].map String.toList

def instrKws : List (List Char) :=
  ["instrument", "sensor", "capteur", "measurement", "mesure", "pressure",
   "pression", "tiltmeter"].map String.toList

def themeGnss : List Char := "Méthodes GNSS-Acoustique".toList
def themeGeodesy : List Char := "Géodésie des fonds marins".toList
def themeOptim : List Char := "Optimisation et traitement de données".toList
def themeModel : List Char := "Modélisation et simulation".toList
def themeInstr : List Char := "Instruments et techniques de mesure".toList
def themeApps : List Char := "Applications et études de cas".toList

/-- Model of `categorize_theme` (lines 197-215). -/
def categorize_theme (ref : ParsedReference) (usage_desc : List Char) : List Char :=
  let full_text := lowerC (ref.full_ref ++ (' ' :: usage_desc))
  if gnssKws.any (fun w => containsSub w full_text) then themeGnss
  else if geodesyKws.any (fun w => containsSub w full_text) then themeGeodesy
  else if optimKws.any (fun w => containsSub w full_text) then themeOptim
  else if modelKws.any (fun w => containsSub w full_text) then themeModel
  else if instrKws.any (fun w => containsSub w full_text) then themeInstr
  else themeApps

/-- The closed 6-label theme vocabulary of the spec. -/
def themeVocab : List (List Char) :=
  [themeGnss, themeGeodesy, themeOptim, themeModel, themeInstr, themeApps]

/-- The priority-ordered rule list exactly as claim C7 words it. -/
def themeRules : List (List (List Char) × List Char) :=
  [(gnssKws, themeGnss), (geodesyKws, themeGeodesy), (optimKws, themeOptim),
   (modelKws, themeModel), (instrKws, themeInstr)]

/-- Strict first-match scan over a rule list, with the catch-all label when
no keyword set intersects the text (the spec-side formulation of C7). -/
def firstMatchLabel : List (List (List Char) × List Char) → List Char → List Char
  | [], _ => themeApps
  | (kws, lbl) :: rest, t =>
    if kws.any (fun w => containsSub w t) then lbl else firstMatchLabel rest t

/-! ### `parse_markdown_table` (extract_references.py, lines 115-164)

The Python function receives the table as one string and first splits it on
newlines; the model receives the list of lines directly (so a "line" here
is one element of that split). -/

/-- The character class `[\|\s\-:]` of the separator-line regex. -/
def sepChar (c : Char) : Bool :=
  c == '|' || pySpace c || c == '-' || c == ':'

/-- Model of `re.match(r'^[\|\s\-:]+$', line)`: non-empty and made only of pipe,
whitespace, dash and colon characters. -/
def isSepLine (l : List Char) : Bool :=
  !l.isEmpty && l.all sepChar

/-- Python slice `[1:-1]` on a list. -/
def sliceInner (l : List α) : List α := (l.drop 1).dropLast

/-- The header encoding corrections (lines 146-150), applied left to
right exactly as the source chains `.replace`. -/
def headerFix (h : List Char) : List Char :=
  replaceAll ("AnnÃ©e".toList) ("Année".toList)
    (replaceAll ("ThÃ¨me".toList) ("Thème".toList)
      (replaceAll ("Note d\x27importance".toList) ("Note d\x27importance".toList)
        (replaceAll ("Arguments Ã©tayÃ©s".toList) ("Arguments étayés".toList)
          (replaceAll ("RÃ©fÃ©rence".toList) ("Référence".toList) h))))

/-- The data-cell encoding corrections (lines 158-161). -/
def cellFix (c : List Char) : List Char :=
  replaceAll ("AnnÃ©e".toList) ("Année".toList)
    (replaceAll ("ThÃ¨me".toList) ("Thème".toList)
      (replaceAll ("Arguments Ã©tayÃ©s".toList) ("Arguments étayés".toList)
        (replaceAll ("RÃ©fÃ©rence".toList) ("Référence".toList) c)))

/-- Model of `parse_markdown_table` (lines 115-164): strip lines, drop blank lines,
drop separator lines, read the headers from the first remaining line, keep
only data rows whose cell count matches the header count, and apply the
encoding corrections. -/
def parse_markdown_table (content : List (List Char)) :
    List (List Char) × List (List (List Char)) :=
  let lines := (content.map pyStrip).filter (fun l => !l.isEmpty)
  if lines.length < 2 then ([], [])
  else
    let data_lines := lines.filter (fun l => !isSepLine l)
    match data_lines with
    | [] => ([], [])
    | header_line :: rest =>
      let headers := (sliceInner (splitOnChar '|' header_line)).map
        (fun c => headerFix (pyStrip c))
      let data_rows := rest.filterMap (fun line =>
        let cells := (sliceInner (splitOnChar '|' line)).map pyStrip
        if cells.length = headers.length then some (cells.map cellFix) else none)
      (headers, data_rows)

/-! ### The markdown emission of `analyze_references.py __main__`
(lines 252-263) -/

/-- One row of the emitted table (the six printed fields; `importance` is
the decimal rendering of the score). -/
structure MDRow where
  refCell : List Char
  theme : List Char
  usage : List Char
  importance : List Char
  year : List Char
  link : List Char
  deriving Repr, DecidableEq

/-- Model of `result['reference'].replace('|', '\\|')` (line 256). -/
def escapePipes (c : List Char) : List Char :=
  replaceAll ['|'] ['\\', '|'] c

/-- The six cells of a row, in emission order. -/
def cellsOf (r : MDRow) : List (List Char) :=
  [r.refCell, r.theme, r.usage, r.importance, r.year, r.link]

/-- The printed header line (line 252). -/
def mdHeaderLine : List Char :=
  "| Référence | Thème | Arguments étayés | Note d\x27importance | Année | Lien web |".toList

/-- The printed separator line (line 253). -/
def mdSepLine : List Char :=
  "|-----------|-------|------------------|-------------------|-------|----------|".toList

/-- The printed data line
`f"| {ref} | {theme} | {usage} | {importance} | {year} | {link} |"`
(line 263), with the Reference cell pipe-escaped. -/
def rowLine (r : MDRow) : List Char :=
  '|' :: ' ' :: (escapePipes r.refCell ++ ' ' :: '|' :: ' ' :: (r.theme ++
    ' ' :: '|' :: ' ' :: (r.usage ++ ' ' :: '|' :: ' ' :: (r.importance ++
      ' ' :: '|' :: ' ' :: (r.year ++ ' ' :: '|' :: ' ' :: (r.link ++ [' ', '|']))))))

/-- The emitted table, as the list of printed lines. -/
def serializeTable (rows : List MDRow) : List (List Char) :=
  mdHeaderLine :: mdSepLine :: rows.map rowLine

/-- The fixed header vocabulary of the emitted table. -/
def stdHeaders : List (List Char) :=
  ["Référence", "Thème", "Arguments étayés", "Note d\x27importance", "Année",
   "Lien web"].map String.toList

/-! ### `consolidate_themes` (extract_references.py, lines 208-251) -/

/-- Increment the count of key `k` in an association list, preserving
first-insertion order (the model of a Python `dict` used as a counter). -/
def bumpCount (k : List Char) : List (List Char × Nat) → List (List Char × Nat)
  | [] => [(k, 1)]
  | (a, n) :: t => if a = k then (a, n + 1) :: t else (a, n) :: bumpCount k t

/-- Model of `theme_counts` (lines 217-221): rows shorter than the theme column are
skipped; themes are counted stripped, in encounter order. -/
def themeCounts (idx : Nat) (rows : List (List (List Char))) : List (List Char × Nat) :=
  rows.foldl (fun acc r =>
    match r[idx]? with
    | some cell => bumpCount (pyStrip cell) acc
    | none => acc) []

/-- Stable insertion for a descending sort by count: an element moves past
`y` only when `y` has a strictly larger count, so equal counts keep their
original relative order - the behaviour of Python's stable
`sorted(..., reverse=True)`. -/
def insertByCount (x : List Char × Nat) : List (List Char × Nat) → List (List Char × Nat)
  | [] => [x]
  | y :: t => if x.2 < y.2 then y :: insertByCount x t else x :: y :: t

/-- Stable sort by count, descending (line 228). -/
def sortByCountDesc : List (List Char × Nat) → List (List Char × Nat)
  | [] => []
  | x :: t => insertByCount x (sortByCountDesc t)

/-- The catch-all theme label `'Autre'`. -/
def autreLabel : List Char := "Autre".toList

/-- Model of `consolidate_themes` (lines 208-251).  The `theme_mapping` dict maps
each of the `max_themes` most frequent themes to itself, `'Autre'` to
`'Autre'`, and every remaining theme to `'Autre'`; a row's theme cell is
rewritten to the (stripped) mapped value when its stripped value is in the
mapping. -/
def consolidate_themes (headers : List (List Char))
    (data_rows : List (List (List Char))) (max_themes : Nat) :
    List (List Char) × List (List (List Char)) :=
  match headers.findIdx? (fun h => h == "Thème".toList) with
  | none => (headers, data_rows)
  | some theme_idx =>
    let counts := themeCounts theme_idx data_rows
    if counts.length ≤ max_themes then (headers, data_rows)
    else
      let sorted := sortByCountDesc counts
      let main_themes := (sorted.take max_themes).map Prod.fst
      let other_themes := (sorted.drop max_themes).map Prod.fst
      if other_themes.isEmpty then (headers, data_rows)
      else
        let rows2 := data_rows.map (fun row =>
          match row[theme_idx]? with
          | none => row
          | some cell =>
            let t := pyStrip cell
            if t ∈ main_themes then row.set theme_idx t
            else if t = autreLabel ∨ t ∈ other_themes then row.set theme_idx autreLabel
            else row)
        (headers, rows2)

/-- The distinct theme values appearing in a table, in encounter order. -/
def distinctThemes (idx : Nat) (rows : List (List (List Char))) : List (List Char) :=
  dedupFirstAux [] (rows.filterMap (fun r => r[idx]?))

/-! ### Concrete inputs used by the claim evaluations -/

/-- Headers of the C1 failing input. -/
def c1Headers : List (List Char) := [("Thème").toList]

/-- Rows of the C1 failing input: nine distinct themes, `A`-`F` twice each
and `G`, `H`, `I` once each. -/
def c1Rows : List (List (List Char)) :=
  [[("A").toList], [("A").toList], [("B").toList], [("B").toList],
   [("C").toList], [("C").toList], [("D").toList], [("D").toList],
   [("E").toList], [("E").toList], [("F").toList], [("F").toList],
   [("G").toList], [("H").toList], [("I").toList]]

/-- The authors transformation as claim C6 words it, with no guard on the
presence of a comma-space in the text. -/
def c6ClaimAuthors (ap : List Char) : List Char :=
  if containsSub ("et al".toList) (lowerC ap) then
    pyStrip (firstSplit ',' ap) ++ " et al.".toList
  else
    let toks := splitOnChar ',' ap
    let joined := joinSep (", ".toList) ((toks.take 3).map pyStrip)
    if 3 < toks.length then joined ++ " et al.".toList else joined

/-- The authors transformation actually performed by `parse_reference` when
a year was found (lines 76-87): the `et al.` / up-to-3-tokens branching
applies only when the normalized text contains `", "`; otherwise the text
is used verbatim. -/
def c6AmendedAuthors (ap : List Char) : List Char :=
  if containsSub (", ".toList) ap then
    let first_author := pyStrip (firstSplit ',' ap)
    if containsSub ("et al".toList) (lowerC ap) then
      first_author ++ " et al.".toList
    else
      let toks := splitOnChar ',' ap
      let joined := joinSep (", ".toList) ((toks.take 3).map pyStrip)
      if 3 < toks.length then joined ++ " et al.".toList else joined
  else ap

/-- Side conditions under which one emitted row survives re-parsing
unchanged: no pipe (the escaping does not survive the parser's split), no
newline (cells must stay on their printed line) and no surrounding
whitespace (the parser strips each cell) in any cell. -/
def goodCell (c : List Char) : Prop :=
  '|' ∉ c ∧ '\n' ∉ c ∧ pyStrip c = c

/-- A row is re-parseable when all its cells are `goodCell` and some cell
contains a character outside the separator-line class (otherwise the
emitted line is dropped as a separator line). -/
def goodRow (r : MDRow) : Prop :=
  (∀ c ∈ cellsOf r, goodCell c) ∧ ∃ c ∈ cellsOf r, ∃ ch ∈ c, sepChar ch = false

instance (c : List Char) : Decidable (goodCell c) := by
  unfold goodCell
  infer_instance

instance (r : MDRow) : Decidable (goodRow r) := by
  unfold goodRow
  infer_instance

/-- C2 counterexample input: a Reference cell with an embedded pipe. -/
def c2PipeRow : MDRow :=
  { refCell := "A|B".toList, theme := "t".toList, usage := "u".toList,
    importance := "50".toList, year := "2019".toList, link := "x".toList }

/-- C2 witness input: a well-behaved row. -/
def c2GoodRow : MDRow :=
  { refCell := "Smith (2019)".toList, theme := "T".toList, usage := "u".toList,
    importance := "50".toList, year := "2019".toList, link := [] }

/-- Predicate `SepFrom pat s lo qs`: the positions in `qs` are occurrences of `pat`
in `s`, in increasing order starting at or after `lo`, consecutive ones at
least `pat.length` apart. -/
def SepFrom (pat s : List Char) : Nat → List Nat → Prop
  | _, [] => True
  | lo, q :: t => lo ≤ q ∧ occursAt pat s q = true ∧ SepFrom pat s (q + pat.length) t

/-- A matcher `m` is needle-ending when every match span it reports is long
enough to contain `pat` and ends with an occurrence of `pat`. -/
def StepSpec (m : Nat → Option Nat) (pat s : List Char) : Prop :=
  ∀ i e, m i = some e → i + pat.length ≤ e ∧
    occursAt pat s (e - pat.length) = true

/-! ## Theorems -/

/-- Claim C1 (code bug): on a table with 9 distinct themes and
`max_themes = 6`, consolidation keeps the 6 most frequent themes *and*
introduces the catch-all `'Autre'`, so the output has 7 distinct theme
values, not the at-most-6 promised by the function's docstring and claimed
by the spec.  The input has 9 distinct themes; the output has 7. -/
theorem c1_consolidation_exceeds_cap :
    (distinctThemes 0 c1Rows).length = 9 ∧
    (consolidate_themes c1Headers c1Rows 6).2 =
      [[("A").toList], [("A").toList], [("B").toList], [("B").toList],
       [("C").toList], [("C").toList], [("D").toList], [("D").toList],
       [("E").toList], [("E").toList], [("F").toList], [("F").toList],
       [autreLabel], [autreLabel], [autreLabel]] ∧
    (distinctThemes 0 (consolidate_themes c1Headers c1Rows 6).2).length = 7 := by
  decide

/-- Claim C7: `categorize_theme` is the strict first-match scan over the
priority-ordered rule list applied to the lowered concatenation of the raw
reference text and the usage description, and its result is always one of
the six vocabulary labels. -/
theorem c7_theme_first_match (ref : ParsedReference) (usage_desc : List Char) :
    categorize_theme ref usage_desc =
      firstMatchLabel themeRules (lowerC (ref.full_ref ++ (' ' :: usage_desc))) ∧
    categorize_theme ref usage_desc ∈ themeVocab := by
  constructor
  · simp only [categorize_theme, themeRules, firstMatchLabel]
  · simp only [categorize_theme, themeVocab]
    split_ifs <;> simp

/-- Claim C8: `display` always equals the authors followed by the year in
parentheses, optionally suffixed with `" - "` and the title exactly when
the title is non-empty. -/
theorem c8_display_label (s : List Char) :
    (parse_reference s).display =
      (parse_reference s).authors ++ " (".toList ++ (parse_reference s).year ++
        ")".toList ++
        (if (parse_reference s).title = [] then []
         else " - ".toList ++ (parse_reference s).title) := by
  rcases h : findYear s with _ | ⟨i, y, e⟩ <;>
    simp [parse_reference, h, mkDisplay, List.append_assoc]

theorem yearAt_none_of_ge (s : List Char) (i : Nat) (h : s.length ≤ i) :
    yearAt s i = none := by
  unfold yearAt
  rw [List.drop_eq_nil_of_le h]

theorem yearAt_some_ne_nil {s : List Char} {i : Nat} {y : List Char} {e : Nat}
    (h : yearAt s i = some (y, e)) : y ≠ [] := by
  intro hy
  subst hy
  unfold yearAt at h
  repeat' split at h
  all_goals simp_all

theorem findYearAux_some (s : List Char) :
    ∀ fuel i0 i y e, findYearAux s fuel i0 = some (i, y, e) →
      yearAt s i = some (y, e) ∧ i0 ≤ i ∧
        ∀ j, i0 ≤ j → j < i → yearAt s j = none := by
  intro fuel
  induction fuel with
  | zero => intro i0 i y e h; simp [findYearAux] at h
  | succ fuel ih =>
    intro i0 i y e h
    unfold findYearAux at h
    split at h
    · rename_i y0 e0 heq
      simp only [Option.some.injEq, Prod.mk.injEq] at h
      obtain ⟨rfl, rfl, rfl⟩ := h
      exact ⟨heq, Nat.le_refl _, fun j hj1 hj2 => absurd hj2 (by omega)⟩
    · rename_i heq
      split at h
      · rcases ih (i0 + 1) i y e h with ⟨h1, h2, h3⟩
        refine ⟨h1, by omega, fun j hj1 hj2 => ?_⟩
        rcases Nat.eq_or_lt_of_le hj1 with rfl | hlt
        · exact heq
        · exact h3 j hlt hj2
      · exact absurd h (by simp)

theorem findYearAux_none (s : List Char) :
    ∀ fuel i0, s.length + 1 ≤ fuel + i0 → findYearAux s fuel i0 = none →
      ∀ j, i0 ≤ j → yearAt s j = none := by
  intro fuel
  induction fuel with
  | zero =>
    intro i0 hfi _ j hj
    exact yearAt_none_of_ge s j (by omega)
  | succ fuel ih =>
    intro i0 hfi h j hj
    unfold findYearAux at h
    split at h
    · exact absurd h (by simp)
    · rename_i heq
      split at h
      · rcases Nat.eq_or_lt_of_le hj with rfl | hlt
        · exact heq
        · exact ih (i0 + 1) (by omega) h j hlt
      · rename_i hge
        exact yearAt_none_of_ge s j (by omega)

/-- Claim C9: when the year regex matches somewhere, `parse_reference`
returns a non-empty year equal to the capture of the *leftmost* match; when
it matches nowhere, the year is the empty string.  (`parse_reference` is a
total function, so the parser never fails.) -/
theorem c9_year_field (s : List Char) :
    ((∃ i y e, yearAt s i = some (y, e)) →
      (parse_reference s).year ≠ [] ∧
      ∃ i y e, yearAt s i = some (y, e) ∧ (parse_reference s).year = y ∧
        ∀ j, j < i → yearAt s j = none) ∧
    ((∀ i, yearAt s i = none) → (parse_reference s).year = []) := by
  rcases hf : findYear s with _ | ⟨i, y, e⟩
  · unfold findYear at hf
    constructor
    · rintro ⟨i, y, e, hy⟩
      have := findYearAux_none s (s.length + 1) 0 (by omega) hf i (Nat.zero_le _)
      rw [this] at hy
      exact absurd hy (by simp)
    · intro _
      simp [parse_reference, findYear, hf]
  · unfold findYear at hf
    have hspec := findYearAux_some s (s.length + 1) 0 i y e hf
    have hyear : (parse_reference s).year = y := by
      simp [parse_reference, findYear, hf]
    constructor
    · intro _
      refine ⟨by rw [hyear]; exact yearAt_some_ne_nil hspec.1,
        i, y, e, hspec.1, hyear, fun j hj => hspec.2.2 j (Nat.zero_le _) hj⟩
    · intro hall
      exact absurd hspec.1 (by simp [hall i])

/-- Witness for C9 at `"Smith (2019a), T"`: the year `"2019a"` is found at
index 6. -/
theorem c9_year_field_witness :
    (parse_reference ("Smith (2019a), T".toList)).year ≠ [] ∧
    ∃ i y e, yearAt ("Smith (2019a), T".toList) i = some (y, e) ∧
      (parse_reference ("Smith (2019a), T".toList)).year = y ∧
      ∀ j, j < i → yearAt ("Smith (2019a), T".toList) j = none :=
  (c9_year_field _).1 ⟨6, "2019a".toList, 13, by decide⟩

/-- Counterexample to claim C6: on `"Smith et al. (2019) Great paper"` the
text before the year contains an `et al.` marker but no `", "`, so
`parse_reference` keeps it verbatim (`"Smith et al."`), while the claim's
transformation would produce `"Smith et al. et al."`. -/
theorem c6_authors_counterexample :
    findYear ("Smith et al. (2019) Great paper".toList) =
      some (13, "2019".toList, 19) ∧
    (parse_reference ("Smith et al. (2019) Great paper".toList)).authors =
      "Smith et al.".toList ∧
    c6ClaimAuthors (normWs (pyStrip (("Smith et al. (2019) Great paper".toList).take 13))) =
      "Smith et al. et al.".toList ∧
    (parse_reference ("Smith et al. (2019) Great paper".toList)).authors ≠
      c6ClaimAuthors (normWs (pyStrip (("Smith et al. (2019) Great paper".toList).take 13))) := by
  decide

/-- Claim C6 as amended: when a year is found, the authors field is
`c6AmendedAuthors` of the whitespace-normalized text preceding the year
match - the `et al.` / up-to-3-tokens transformation guarded by the
presence of `", "` in that text, which is otherwise kept verbatim. -/
theorem c6_authors_amended (s : List Char) (i : Nat) (y : List Char) (e : Nat)
    (h : findYear s = some (i, y, e)) :
    (parse_reference s).authors = c6AmendedAuthors (normWs (pyStrip (s.take i))) := by
  simp [parse_reference, h, c6AmendedAuthors]

/-- Witness for the amended C6 at `"Aa, Bb, Cc, Dd (2001) T"` (four
comma-separated tokens, so the first three are kept and `" et al."` is
appended). -/
theorem c6_authors_amended_witness :
    (parse_reference ("Aa, Bb, Cc, Dd (2001) T".toList)).authors =
      c6AmendedAuthors (normWs (pyStrip (("Aa, Bb, Cc, Dd (2001) T".toList).take 15))) ∧
    (parse_reference ("Aa, Bb, Cc, Dd (2001) T".toList)).authors =
      "Aa, Bb, Cc et al.".toList :=
  ⟨c6_authors_amended _ 15 ("2001".toList) 21 (by decide), by decide⟩

/-- Claim C5: with a non-empty year, the citation list is exactly the
`pattern1` matches followed by the `pattern2` matches (duplicates across
the two patterns are not merged), so its length is the sum of the two
match counts. -/
theorem c5_citation_count (text : List Char) (ref : ParsedReference)
    (h : ref.year ≠ []) :
    (find_reference_citations text ref).length =
      (pattern1Matches text ref).length + (pattern2Matches text ref).length ∧
    (find_reference_citations text ref).map (fun c => c.position) =
      (pattern1Matches text ref).map Prod.fst ++
        (pattern2Matches text ref).map Prod.fst := by
  have hne : ref.year.isEmpty = false := by
    simpa [List.isEmpty_iff] using h
  constructor
  · simp [find_reference_citations, hne]
  · have h1 : ∀ l : List (Nat × Nat),
        List.map ((fun c => c.position) ∘ mkContext text) l = List.map Prod.fst l := by
      intro l
      induction l with
      | nil => rfl
      | cons a t ih => simp [Function.comp, mkContext, ih]
    simp [find_reference_citations, hne, List.map_map, h1]

/-- Witness for C5 at a text that cites `"Wu"` once in author-anchored form
while the year `(2022)` occurs twice: 1 + 2 = 3 citations. -/
theorem c5_citation_count_witness :
    ((find_reference_citations ("Wu (2022) and later (2022)".toList)
        { authors := "Wu, Q.".toList, year := "2022".toList, title := [],
          doi := [], full_ref := [], display := [] }).length =
      (pattern1Matches ("Wu (2022) and later (2022)".toList)
        { authors := "Wu, Q.".toList, year := "2022".toList, title := [],
          doi := [], full_ref := [], display := [] }).length +
      (pattern2Matches ("Wu (2022) and later (2022)".toList)
        { authors := "Wu, Q.".toList, year := "2022".toList, title := [],
          doi := [], full_ref := [], display := [] }).length) ∧
    (find_reference_citations ("Wu (2022) and later (2022)".toList)
        { authors := "Wu, Q.".toList, year := "2022".toList, title := [],
          doi := [], full_ref := [], display := [] }).length = 3 :=
  ⟨(c5_citation_count _ _ (by decide)).1, by decide⟩

/-- Claim C4: the importance score equals the claim's formula (30 for zero
citations; otherwise base 85/70/50 by citation count, +15 capped at 100
exactly when a method-justification or theoretical-framing window was
detected), and is always at most 100 (it is a `Nat`, hence at least 0). -/
theorem c4_importance_score (text : List Char) (ref : ParsedReference) :
    (analyze_reference_usage text ref).2 = c4SpecScore text ref ∧
    (analyze_reference_usage text ref).2 ≤ 100 := by
  by_cases h0 : find_reference_citations text ref = []
  · simp [analyze_reference_usage, c4SpecScore, h0]
  · have hne : (find_reference_citations text ref).isEmpty = false := by
      simpa [List.isEmpty_iff] using h0
    have hlen : (find_reference_citations text ref).length ≠ 0 := by
      simpa using h0
    simp only [analyze_reference_usage, c4SpecScore, hne, hlen, Bool.false_eq_true,
      if_false, if_neg hlen]
    split_ifs <;> simp_all

/-! ### Lemmas about the `finditer` model, used for claim C10 -/

theorem sepFrom_mono {pat s : List Char} {lo lo' : Nat} {qs : List Nat}
    (h : lo' ≤ lo) (hs : SepFrom pat s lo qs) : SepFrom pat s lo' qs := by
  cases qs with
  | nil => trivial
  | cons q t => exact ⟨Nat.le_trans h hs.1, hs.2.1, hs.2.2⟩

theorem occursAt_le_length {pat s : List Char} {i : Nat} (hp : pat ≠ [])
    (h : occursAt pat s i = true) : i + pat.length ≤ s.length := by
  unfold occursAt at h
  rw [beq_iff_eq] at h
  have hlen : ((s.drop i).take pat.length).length = pat.length := by rw [h]
  rw [List.length_take, List.length_drop] at hlen
  have hp' : 0 < pat.length := List.length_pos.mpr hp
  omega

theorem finditerAux_mem (m : Nat → Option Nat) (n : Nat) :
    ∀ fuel i pr, pr ∈ finditerAux m n fuel i → m pr.1 = some pr.2 := by
  intro fuel
  induction fuel with
  | zero => intro i pr h; simp [finditerAux] at h
  | succ fuel ih =>
    intro i pr h
    unfold finditerAux at h
    split at h
    · simp at h
    · split at h
      · rename_i e heq
        rcases List.mem_cons.mp h with rfl | h2
        · exact heq
        · exact ih _ pr h2
      · split at h
        · exact ih _ pr h
        · simp at h

theorem chompLit_some {lit s : List Char} {i j : Nat}
    (h : chompLit lit s i = some j) :
    j = i + lit.length ∧ occursAt lit s i = true := by
  unfold chompLit at h
  split at h <;> simp_all

theorem chompWs1_le {s : List Char} {i j : Nat} (h : chompWs1 s i = some j) :
    i ≤ j := by
  unfold chompWs1 at h
  split at h
  · injection h with h
    subst h
    unfold wsEnd
    omega
  · exact absurd h (by simp)

theorem dotOpt_le (s : List Char) (i : Nat) : i ≤ dotOpt s i := by
  unfold dotOpt
  split <;> omega

theorem wsEnd_le (s : List Char) (i : Nat) : i ≤ wsEnd s i := by
  unfold wsEnd
  omega

theorem etAlStep_spec (fa pat s : List Char) : StepSpec (etAlStep fa pat s) pat s := by
  intro i e h
  unfold etAlStep at h
  rcases h1 : chompLit fa s i with _ | j1 <;> rw [h1] at h
  · simp at h
  simp only [Option.some_bind] at h
  rcases h2 : chompWs1 s j1 with _ | j2 <;> rw [h2] at h
  · simp at h
  simp only [Option.some_bind] at h
  rcases h3 : chompLit ("et".toList) s j2 with _ | j3 <;> rw [h3] at h
  · simp at h
  simp only [Option.some_bind] at h
  rcases h4 : chompWs1 s j3 with _ | j4 <;> rw [h4] at h
  · simp at h
  simp only [Option.some_bind] at h
  rcases h5 : chompLit ("al".toList) s j4 with _ | j5 <;> rw [h5] at h
  · simp at h
  simp only [Option.some_bind] at h
  obtain ⟨he, hocc⟩ := chompLit_some h
  have hij1 : i ≤ j1 := by have := (chompLit_some h1).1; omega
  have hj2 : j1 ≤ j2 := chompWs1_le h2
  have hj3 : j2 ≤ j3 := by have := (chompLit_some h3).1; omega
  have hj4 : j3 ≤ j4 := chompWs1_le h4
  have hj5 : j4 ≤ j5 := by have := (chompLit_some h5).1; omega
  have hj7 : j5 ≤ wsEnd s (dotOpt s j5) :=
    Nat.le_trans (dotOpt_le s j5) (wsEnd_le s (dotOpt s j5))
  constructor
  · omega
  · have : e - pat.length = wsEnd s (dotOpt s j5) := by omega
    rw [this]
    exact hocc

theorem lastOpt_mem : ∀ {l : List α} {a : α}, lastOpt l = some a → a ∈ l := by
  intro l
  induction l with
  | nil => intro a h; simp [lastOpt] at h
  | cons x t ih =>
    intro a h
    cases t with
    | nil =>
      simp [lastOpt] at h
      simp [h]
    | cons y u =>
      unfold lastOpt at h
      exact List.mem_cons_of_mem x (ih h)

theorem greedyTail_spec {pat s : List Char} {q e : Nat}
    (h : greedyTail pat s q = some e) :
    q + pat.length ≤ e ∧ occursAt pat s (e - pat.length) = true := by
  unfold greedyTail at h
  rcases h2 : lastOpt ((List.range (s.length + 1)).filter
      (fun k => decide (q ≤ k) && noCommaRange s q k && occursAt pat s k)) with _ | k <;>
    rw [h2] at h
  · simp at h
  · have hk := lastOpt_mem h2
    simp only [List.mem_filter, List.mem_range, Bool.and_eq_true,
      decide_eq_true_eq] at hk
    obtain ⟨-, ⟨hqk, -⟩, hocc⟩ := hk
    simp only [Option.map_some'] at h
    injection h with h
    subst h
    refine ⟨by omega, ?_⟩
    rw [Nat.add_sub_cancel]
    exact hocc

theorem anchoredStep_spec (fa pat s : List Char) :
    StepSpec (anchoredStep fa pat s) pat s := by
  intro i e h
  unfold anchoredStep at h
  rcases h1 : chompLit fa s i with _ | q <;> rw [h1] at h
  · simp at h
  · simp only [Option.some_bind] at h
    obtain ⟨hge, hocc⟩ := greedyTail_spec h
    have hq : q = i + fa.length := (chompLit_some h1).1
    exact ⟨by omega, hocc⟩

theorem chompLit_self_spec (pat s : List Char) : StepSpec (chompLit pat s) pat s := by
  intro i e h
  obtain ⟨he, hocc⟩ := chompLit_some h
  subst he
  refine ⟨Nat.le_refl _, ?_⟩
  rw [Nat.add_sub_cancel]
  exact hocc

theorem finditerAux_sepFrom (m : Nat → Option Nat) (pat s : List Char)
    (hm : StepSpec m pat s) :
    ∀ fuel i, SepFrom pat s i
      ((finditerAux m s.length fuel i).map (fun pr => pr.2 - pat.length)) := by
  intro fuel
  induction fuel with
  | zero => intro i; simp [finditerAux]; trivial
  | succ fuel ih =>
    intro i
    unfold finditerAux
    split
    · trivial
    · rename_i hni
      split
      · rename_i e hmi
        simp only [List.map_cons]
        obtain ⟨hle, hocc⟩ := hm i e hmi
        refine ⟨by omega, hocc, ?_⟩
        have heq : e - pat.length + pat.length = e := by omega
        rw [heq]
        exact sepFrom_mono (Nat.le_max_left _ _) (ih (max e (i + 1)))
      · split
        · exact sepFrom_mono (by omega) (ih (i + 1))
        · trivial

theorem finditerAux_lit_lower (pat s : List Char) (hp : pat ≠ []) :
    ∀ fuel i qs, s.length + 1 ≤ fuel + i → SepFrom pat s i qs →
      qs.length ≤ (finditerAux (chompLit pat s) s.length fuel i).length := by
  have hL : 0 < pat.length := List.length_pos.mpr hp
  intro fuel
  induction fuel with
  | zero =>
    intro i qs hfi hsep
    cases qs with
    | nil => simp
    | cons q t =>
      have h2 := occursAt_le_length hp hsep.2.1
      have h1 := hsep.1
      omega
  | succ fuel ih =>
    intro i qs hfi hsep
    cases qs with
    | nil => simp
    | cons q t =>
      obtain ⟨hiq, hocc, hrest⟩ := hsep
      have hqL := occursAt_le_length hp hocc
      unfold finditerAux
      have hni : ¬ s.length < i := by omega
      rw [if_neg hni]
      split
      · rename_i e' heq
        obtain ⟨he', hci⟩ := chompLit_some heq
        subst he'
        have hmax : max (i + pat.length) (i + 1) = i + pat.length := by omega
        rw [hmax]
        simp only [List.length_cons]
        have hsep' : SepFrom pat s (i + pat.length) t :=
          sepFrom_mono (by omega) hrest
        have hih := ih (i + pat.length) t (by omega) hsep'
        omega
      · rename_i heq
        have hci : occursAt pat s i = false := by
          by_cases hc : occursAt pat s i
          · simp [chompLit, hc] at heq
          · simpa using hc
        have hiq' : i ≠ q := by
          intro he
          rw [he, hocc] at hci
          exact absurd hci (by simp)
        have hin : i < s.length := by omega
        rw [if_pos hin]
        exact ih (i + 1) (q :: t) (by omega) ⟨by omega, hocc, hrest⟩

/-- Any needle-ending matcher produces at most as many non-overlapping
matches as the scan for the bare needle itself. -/
theorem finditer_le_lit (m : Nat → Option Nat) (pat s : List Char)
    (hp : pat ≠ []) (hm : StepSpec m pat s) :
    (finditer m s.length).length ≤ (finditer (chompLit pat s) s.length).length := by
  have hsep := finditerAux_sepFrom m pat s hm (s.length + 1) 0
  have hlow := finditerAux_lit_lower pat s hp (s.length + 1) 0
    ((finditerAux m s.length (s.length + 1) 0).map (fun pr => pr.2 - pat.length))
    (by omega) hsep
  simpa [finditer] using hlow

/-- Claim C10: every author-anchored (pattern-1) match span ends with an
occurrence of the bare `\(year\)` needle contained in the span, the number
of bare-year (pattern-2) citations is at least the number of pattern-1
citations, and whenever there is at least one pattern-1 citation the total
citation count is at least 2. -/
theorem c10_bare_year_dominates (text : List Char) (ref : ParsedReference)
    (h : ref.year ≠ []) :
    (∀ pr ∈ pattern1Matches text ref,
        pr.1 + (citationNeedle ref.year).length ≤ pr.2 ∧
        occursAt (citationNeedle ref.year) (lowerC text)
          (pr.2 - (citationNeedle ref.year).length) = true) ∧
    (pattern1Matches text ref).length ≤ (pattern2Matches text ref).length ∧
    (1 ≤ (pattern1Matches text ref).length →
        2 ≤ (find_reference_citations text ref).length) := by
  have hpne : citationNeedle ref.year ≠ [] := by simp [citationNeedle, lowerC]
  have hne : ref.year.isEmpty = false := by simpa [List.isEmpty_iff] using h
  have hmain : ∀ m : Nat → Option Nat,
      StepSpec m (citationNeedle ref.year) (lowerC text) →
      pattern1Matches text ref = finditer m (lowerC text).length →
      (∀ pr ∈ pattern1Matches text ref,
          pr.1 + (citationNeedle ref.year).length ≤ pr.2 ∧
          occursAt (citationNeedle ref.year) (lowerC text)
            (pr.2 - (citationNeedle ref.year).length) = true) ∧
        (pattern1Matches text ref).length ≤ (pattern2Matches text ref).length := by
    intro m hm hp1
    constructor
    · intro pr hpr
      rw [hp1] at hpr
      exact hm pr.1 pr.2 (finditerAux_mem m (lowerC text).length (lowerC text).length.succ 0 pr hpr)
    · rw [hp1]
      exact finditer_le_lit m (citationNeedle ref.year) (lowerC text) hpne hm
  have hres : (∀ pr ∈ pattern1Matches text ref,
      pr.1 + (citationNeedle ref.year).length ≤ pr.2 ∧
      occursAt (citationNeedle ref.year) (lowerC text)
        (pr.2 - (citationNeedle ref.year).length) = true) ∧
      (pattern1Matches text ref).length ≤ (pattern2Matches text ref).length := by
    by_cases hsel : containsSub (" et al".toList) (lowerC ref.authors)
    · refine hmain
        (etAlStep (lowerC (pyStrip (firstSplit ',' ref.authors)))
          (citationNeedle ref.year) (lowerC text))
        (etAlStep_spec _ _ _) ?_
      simp only [pattern1Matches]
      rw [if_pos hsel]
    · refine hmain
        (anchoredStep (lowerC (pyStrip (firstSplit ',' ref.authors)))
          (citationNeedle ref.year) (lowerC text))
        (anchoredStep_spec _ _ _) ?_
      simp only [pattern1Matches]
      rw [if_neg hsel]
  refine ⟨hres.1, hres.2, fun h1 => ?_⟩
  have hlen : (find_reference_citations text ref).length =
      (pattern1Matches text ref).length + (pattern2Matches text ref).length := by
    simp [find_reference_citations, hne]
  omega

/-- Witness for C10 at `"Smith (2019) x"` with authors `"Smith, J."`:
exactly one author-anchored match and one bare-year match, total 2. -/
theorem c10_bare_year_dominates_witness :
    ((pattern1Matches ("Smith (2019) x".toList)
        { authors := "Smith, J.".toList, year := "2019".toList, title := [],
          doi := [], full_ref := [], display := [] }).length ≤
      (pattern2Matches ("Smith (2019) x".toList)
        { authors := "Smith, J.".toList, year := "2019".toList, title := [],
          doi := [], full_ref := [], display := [] }).length) ∧
    2 ≤ (find_reference_citations ("Smith (2019) x".toList)
        { authors := "Smith, J.".toList, year := "2019".toList, title := [],
          doi := [], full_ref := [], display := [] }).length ∧
    (pattern1Matches ("Smith (2019) x".toList)
        { authors := "Smith, J.".toList, year := "2019".toList, title := [],
          doi := [], full_ref := [], display := [] }).length = 1 :=
  ⟨(c10_bare_year_dominates _ _ (by decide)).2.1,
   (c10_bare_year_dominates _ _ (by decide)).2.2 (by decide),
   by decide⟩

/-! ### Lemmas for the round-trip claim C2 -/

theorem splitOnChar_cons_sep (sep : Char) (xs : List Char) :
    splitOnChar sep (sep :: xs) = [] :: splitOnChar sep xs := by
  simp [splitOnChar]

theorem splitOnChar_cons (sep c : Char) (t : List Char) :
    splitOnChar sep (c :: t) =
      if c = sep then [] :: splitOnChar sep t
      else
        match splitOnChar sep t with
        | [] => [[c]]
        | h :: t2 => (c :: h) :: t2 := rfl

theorem splitOnChar_append_sep (sep : Char) (a ys : List Char) (ha : sep ∉ a) :
    splitOnChar sep (a ++ sep :: ys) = a :: splitOnChar sep ys := by
  induction a with
  | nil => simp [splitOnChar]
  | cons c a ih =>
    have hc : ¬ c = sep := fun he => ha (by simp [he])
    have ha2 : sep ∉ a := fun hm => ha (List.mem_cons_of_mem _ hm)
    rw [List.cons_append, splitOnChar_cons, ih ha2, if_neg hc]

theorem lstripC_cons_space (s : List Char) : lstripC (' ' :: s) = lstripC s := by
  simp [lstripC, List.dropWhile_cons, pySpace]

theorem lstripC_cons_of_neg {c : Char} (s : List Char) (hc : pySpace c = false) :
    lstripC (c :: s) = c :: s := by
  simp [lstripC, List.dropWhile_cons, hc]

theorem lstripC_append (a b : List Char) :
    lstripC (a ++ b) = if lstripC a = [] then lstripC b else lstripC a ++ b := by
  induction a with
  | nil => simp [lstripC]
  | cons c a ih =>
    by_cases hc : pySpace c
    · have h1 : lstripC (c :: (a ++ b)) = lstripC (a ++ b) := by
        simp [lstripC, List.dropWhile_cons, hc]
      have h2 : lstripC (c :: a) = lstripC a := by
        simp [lstripC, List.dropWhile_cons, hc]
      rw [List.cons_append, h1, h2, ih]
    · have h1 : lstripC (c :: (a ++ b)) = c :: (a ++ b) := by
        simp [lstripC, List.dropWhile_cons, hc]
      have h2 : lstripC (c :: a) = c :: a := by
        simp [lstripC, List.dropWhile_cons, hc]
      rw [List.cons_append, h1, h2]
      simp

theorem pyStrip_cons_space (s : List Char) : pyStrip (' ' :: s) = pyStrip s := by
  simp [pyStrip, lstripC_cons_space]

theorem pyStrip_append_space (s : List Char) : pyStrip (s ++ [' ']) = pyStrip s := by
  unfold pyStrip
  rw [lstripC_append]
  by_cases h : lstripC s = []
  · rw [if_pos h, h]
    simp [lstripC, List.dropWhile_cons, pySpace]
  · rw [if_neg h]
    rw [List.reverse_append]
    have : ([' '] : List Char).reverse = [' '] := rfl
    rw [this, List.singleton_append, lstripC_cons_space]

theorem pyStrip_wrap (c : List Char) : pyStrip (' ' :: (c ++ [' '])) = pyStrip c := by
  rw [pyStrip_cons_space, pyStrip_append_space]

theorem pyStrip_eq_self_of_ends {x : List Char} {a b : Char}
    (ha : pySpace a = false) (hb : pySpace b = false) :
    pyStrip (a :: (x ++ [b])) = a :: (x ++ [b]) := by
  unfold pyStrip
  rw [lstripC_cons_of_neg _ ha]
  have h2 : (a :: (x ++ [b])).reverse = b :: (x.reverse ++ [a]) := by simp
  rw [h2, lstripC_cons_of_neg _ hb]
  simp

theorem escapePipes_id {c : List Char} (h : '|' ∉ c) : escapePipes c = c := by
  unfold escapePipes replaceAll
  rw [if_neg (by simp)]
  suffices h2 : ∀ fuel s, s.length ≤ fuel → '|' ∉ s →
      replaceAllAux ['|'] ['\\', '|'] fuel s = s by
    exact h2 c.length c (Nat.le_refl _) h
  intro fuel
  induction fuel with
  | zero =>
    intro s hs _
    cases s with
    | nil => rfl
    | cons x t => simp at hs
  | succ fuel ih =>
    intro s hs hnp
    cases s with
    | nil => rfl
    | cons x t =>
      have hx : ¬ x = '|' := fun he => hnp (by simp [he])
      have hocc : occursAt ['|'] (x :: t) 0 = false := by
        simp [occursAt, hx]
      unfold replaceAllAux
      rw [hocc]
      simp only [Bool.false_eq_true, if_false]
      rw [ih t (by simpa using Nat.lt_succ_iff.mp (Nat.lt_of_lt_of_le (Nat.lt_succ_of_le (Nat.le_refl _)) hs))
        (fun hm => hnp (List.mem_cons_of_mem _ hm))]

theorem splitOnChar_seg (c ys : List Char) (hc : '|' ∉ c) :
    splitOnChar '|' (' ' :: (c ++ (' ' :: '|' :: ys))) =
      (' ' :: (c ++ [' '])) :: splitOnChar '|' ys := by
  have ha : '|' ∉ (' ' :: (c ++ [' '])) := by
    simp only [List.mem_cons, List.mem_append, List.mem_singleton]
    push_neg
    exact ⟨by decide, fun hm => absurd hm hc, by decide⟩
  have h := splitOnChar_append_sep '|' (' ' :: (c ++ [' '])) ys ha
  simpa [List.append_assoc] using h

theorem splitOnChar_last (c : List Char) (hc : '|' ∉ c) :
    splitOnChar '|' (' ' :: (c ++ [' ', '|'])) = [' ' :: (c ++ [' ']), []] := by
  have ha : '|' ∉ (' ' :: (c ++ [' '])) := by
    simp only [List.mem_cons, List.mem_append, List.mem_singleton]
    push_neg
    exact ⟨by decide, fun hm => absurd hm hc, by decide⟩
  have h := splitOnChar_append_sep '|' (' ' :: (c ++ [' '])) [] ha
  simpa [List.append_assoc, splitOnChar] using h

theorem rowLine_shape (r : MDRow) :
    rowLine r = '|' :: ((' ' :: (escapePipes r.refCell ++ ' ' :: '|' :: ' ' ::
      (r.theme ++ ' ' :: '|' :: ' ' :: (r.usage ++ ' ' :: '|' :: ' ' ::
        (r.importance ++ ' ' :: '|' :: ' ' :: (r.year ++ ' ' :: '|' :: ' ' ::
          (r.link ++ [' ']))))))) ++ ['|']) := by
  simp [rowLine, List.append_assoc]

theorem pyStrip_rowLine (r : MDRow) : pyStrip (rowLine r) = rowLine r := by
  rw [rowLine_shape]
  exact pyStrip_eq_self_of_ends (by decide) (by decide)

theorem splitOnChar_rowLine (r : MDRow) (h : ∀ c ∈ cellsOf r, '|' ∉ c) :
    splitOnChar '|' (rowLine r) =
      [[], ' ' :: (r.refCell ++ [' ']), ' ' :: (r.theme ++ [' ']),
       ' ' :: (r.usage ++ [' ']), ' ' :: (r.importance ++ [' ']),
       ' ' :: (r.year ++ [' ']), ' ' :: (r.link ++ [' ']), []] := by
  have h0 : '|' ∉ r.refCell := h _ (by simp [cellsOf])
  have h1 : '|' ∉ r.theme := h _ (by simp [cellsOf])
  have h2 : '|' ∉ r.usage := h _ (by simp [cellsOf])
  have h3 : '|' ∉ r.importance := h _ (by simp [cellsOf])
  have h4 : '|' ∉ r.year := h _ (by simp [cellsOf])
  have h5 : '|' ∉ r.link := h _ (by simp [cellsOf])
  unfold rowLine
  rw [escapePipes_id h0, splitOnChar_cons_sep, splitOnChar_seg _ _ h0,
    splitOnChar_seg _ _ h1, splitOnChar_seg _ _ h2, splitOnChar_seg _ _ h3,
    splitOnChar_seg _ _ h4, splitOnChar_last _ h5]

theorem parse_rowLine (r : MDRow) (hg : goodRow r) :
    (sliceInner (splitOnChar '|' (rowLine r))).map pyStrip = cellsOf r := by
  rw [splitOnChar_rowLine r (fun c hc => (hg.1 c hc).1)]
  have e0 : pyStrip (' ' :: (r.refCell ++ [' '])) = r.refCell := by
    rw [pyStrip_wrap]; exact (hg.1 _ (by simp [cellsOf])).2.2
  have e1 : pyStrip (' ' :: (r.theme ++ [' '])) = r.theme := by
    rw [pyStrip_wrap]; exact (hg.1 _ (by simp [cellsOf])).2.2
  have e2 : pyStrip (' ' :: (r.usage ++ [' '])) = r.usage := by
    rw [pyStrip_wrap]; exact (hg.1 _ (by simp [cellsOf])).2.2
  have e3 : pyStrip (' ' :: (r.importance ++ [' '])) = r.importance := by
    rw [pyStrip_wrap]; exact (hg.1 _ (by simp [cellsOf])).2.2
  have e4 : pyStrip (' ' :: (r.year ++ [' '])) = r.year := by
    rw [pyStrip_wrap]; exact (hg.1 _ (by simp [cellsOf])).2.2
  have e5 : pyStrip (' ' :: (r.link ++ [' '])) = r.link := by
    rw [pyStrip_wrap]; exact (hg.1 _ (by simp [cellsOf])).2.2
  simp [sliceInner, cellsOf, e0, e1, e2, e3, e4, e5]

theorem isSepLine_rowLine (r : MDRow) (hg : goodRow r) :
    isSepLine (rowLine r) = false := by
  obtain ⟨c, hc, ch, hch, hsep⟩ := hg.2
  have hpipe : '|' ∉ r.refCell := (hg.1 _ (by simp [cellsOf])).1
  have hmem : ch ∈ rowLine r := by
    simp only [cellsOf, List.mem_cons, List.mem_singleton] at hc
    unfold rowLine
    rw [escapePipes_id hpipe]
    rcases hc with rfl | rfl | rfl | rfl | rfl | rfl | hfalse
    · simp [hch]
    · simp [hch]
    · simp [hch]
    · simp [hch]
    · simp [hch]
    · simp [hch]
    · exact absurd hfalse (by simp)
  cases hall : (rowLine r).all sepChar with
  | false => simp [isSepLine, hall]
  | true =>
    exfalso
    have := List.all_eq_true.mp hall ch hmem
    rw [hsep] at this
    exact absurd this (by simp)

theorem header_parse_eval :
    (sliceInner (splitOnChar '|' mdHeaderLine)).map (fun c => headerFix (pyStrip c)) =
      stdHeaders := by
  decide

theorem filterMap_rowLines (g : List Char → Option (List (List Char)))
    (hg : ∀ r, goodRow r → g (rowLine r) = some ((cellsOf r).map cellFix)) :
    ∀ rs : List MDRow, (∀ r ∈ rs, goodRow r) →
      (rs.map rowLine).filterMap g = rs.map (fun r => (cellsOf r).map cellFix) := by
  intro rs
  induction rs with
  | nil => intro _; rfl
  | cons r t ih =>
    intro hrs
    simp only [List.map_cons]
    rw [List.filterMap_cons_some (hg r (hrs r (by simp))),
      ih (fun x hx => hrs x (List.mem_cons_of_mem _ hx))]

/-- Claim C2 as amended: serializing a table whose rows satisfy `goodRow`
(no pipes, no newlines, trimmed cells, some non-separator character) and
re-parsing it yields the fixed pipeline headers and the original rows up to
the accent-correction substitutions (`cellFix`). -/
theorem c2_roundtrip_amended (rows : List MDRow) (h : ∀ r ∈ rows, goodRow r) :
    parse_markdown_table (serializeTable rows) =
      (stdHeaders, rows.map (fun r => (cellsOf r).map cellFix)) := by
  have hstrip : (serializeTable rows).map pyStrip = serializeTable rows := by
    unfold serializeTable
    simp only [List.map_cons]
    rw [show pyStrip mdHeaderLine = mdHeaderLine from by decide,
      show pyStrip mdSepLine = mdSepLine from by decide, List.map_map]
    have hRowsStripId : List.map (pyStrip ∘ rowLine) rows = List.map rowLine rows :=
      List.map_congr_left (fun r _ => pyStrip_rowLine r)
    rw [hRowsStripId]
  have hfilter : (serializeTable rows).filter (fun l => !l.isEmpty) =
      serializeTable rows := by
    rw [List.filter_eq_self]
    intro a ha
    simp only [serializeTable, List.mem_cons] at ha
    rcases ha with rfl | rfl | ha
    · decide
    · decide
    · rcases List.mem_map.mp ha with ⟨r, hr, rfl⟩
      simp [rowLine]
  have hlen : ¬ (serializeTable rows).length < 2 := by
    simp [serializeTable]
  have hdata : (serializeTable rows).filter (fun l => !isSepLine l) =
      mdHeaderLine :: rows.map rowLine := by
    unfold serializeTable
    rw [List.filter_cons_of_pos (by decide), List.filter_cons_of_neg (by decide),
      List.filter_eq_self.mpr]
    intro a ha
    rcases List.mem_map.mp ha with ⟨r, hr, rfl⟩
    simp [isSepLine_rowLine r (h r hr)]
  simp only [parse_markdown_table]
  rw [hstrip, hfilter, if_neg hlen, hdata]
  simp only [header_parse_eval]
  congr 1
  apply filterMap_rowLines _ _ rows h
  intro r hr
  simp only [parse_rowLine r hr]
  rw [if_pos (by simp [cellsOf, stdHeaders])]

/-- Counterexample to claim C2: a row whose Reference cell contains a pipe
is emitted with the pipe escaped, but re-parsing splits at the escaped pipe
anyway, the cell count no longer matches the headers, and the row is
silently dropped - the round trip loses the row instead of returning it. -/
theorem c2_roundtrip_counterexample :
    (parse_markdown_table (serializeTable [c2PipeRow])).1 = stdHeaders ∧
    (parse_markdown_table (serializeTable [c2PipeRow])).2 = [] ∧
    [(cellsOf c2PipeRow).map cellFix] ≠ ([] : List (List (List Char))) := by
  decide

/-- Witness for the amended C2 on a concrete well-behaved one-row table. -/
theorem c2_roundtrip_amended_witness :
    parse_markdown_table (serializeTable [c2GoodRow]) =
      (stdHeaders, [c2GoodRow].map (fun r => (cellsOf r).map cellFix)) ∧
    (parse_markdown_table (serializeTable [c2GoodRow])).2 =
      [["Smith (2019)".toList, "T".toList, "u".toList, "50".toList,
        "2019".toList, []]] :=
  ⟨c2_roundtrip_amended [c2GoodRow] (by decide), by decide⟩

end BiblioHelper
